import Mathlib

/-!
Shallow embedding of the Knowledge Path Visualizer core
(`src/react_app.js`, with `src/script.js` implementing the same rules):
the topic data model, the unlock evaluator `computeUnlocks`, the
progress-update path `updateProgress`, and the snapshot export/import
pair `exportProgress` / `importProgress`.

Conventions of the embedding:
* A JavaScript topic object becomes the structure `Node`; `unlocked` is
  the derived interactable flag.
* `localStorage` becomes `Storage`, a key/value list plus an
  availability bit; `setItem` fails (models the thrown DOM exception)
  exactly when storage is unavailable.  Exceptions are modelled with
  `Except Unit`.
* `JSON.parse` is a platform builtin, not repository code; its outcome
  is modelled as `Option Json` (`none` = the parse threw, handled by the
  `catch` block of `importProgress`).
* JavaScript member access `entry.id` on a parsed JSON value is
  `jsGet entry "id"`; it yields `none` for `undefined`.  Accessing a
  member of `null` throws a TypeError, which `findEntry` models by
  returning an error.
-/

inductive Json where
  | null
  | bool (b : Bool)
  | num (n : Int)
  | str (s : String)
  | arr (elems : List Json)
  | obj (fields : List (String × Json))

/-- A topic node as defined in the `initialNodes` array of
`src/react_app.js` (and `knowledgeGraph.nodes` of `src/script.js`).
`unlocked` is the derived interactable flag set by `computeUnlocks`. -/
structure Node where
  id : String
  title : String
  description : String
  dependencies : List String
  progress : Int
  unlocked : Bool
deriving DecidableEq

/-- Model of the browser `localStorage`: an association list of keys to
string values together with an availability flag.  A write on an
unavailable storage throws (quota exceeded / storage disabled). -/
structure Storage where
  available : Bool
  items : List (String × String)
deriving DecidableEq

/-- `localStorage.setItem`: overwrites any prior value for the key, or
throws when the storage is unavailable. -/
def Storage.setItem (s : Storage) (k v : String) : Except Unit Storage :=
  if s.available then
    Except.ok { s with items := (k, v) :: s.items.filter (fun p => !(p.1 == k)) }
  else
    Except.error ()

/-- JavaScript member access on a parsed JSON value: `obj` lookup of the
first field with the given key; every non-object yields `undefined`
(modelled as `none`).  The throwing case (member access on `null`) is
handled separately by `findEntry`. -/
def jsGet (j : Json) (k : String) : Option Json :=
  match j with
  | Json.obj fields => (fields.find? (fun f => f.1 == k)).map (fun f => f.2)
  | _ => none

/-- `nodes.find((n) => n.id === depId)` — lookup of a topic by id,
returning the first node with that id (react_app.js line 103). -/
def lookupTopic (nodes : List Node) (id : String) : Option Node :=
  nodes.find? (fun n => n.id == id)

/-- The `every` callback of `computeUnlocks` (react_app.js lines
102-105): `depNode && depNode.progress >= 75` after looking up the
dependency id — a missing id yields `false`. -/
def depSatisfied (nodes : List Node) (depId : String) : Bool :=
  match lookupTopic nodes depId with
  | some depNode => decide (75 ≤ depNode.progress)
  | none => false

/-- The unlock rule applied to one node, exactly as in the body of the
`map` callback of `computeUnlocks` (react_app.js lines 98-107): a node
with no dependencies is unlocked; otherwise it is unlocked iff every
dependency id resolves to a node whose progress is at least 75. -/
def unlockedFlag (nodes : List Node) (node : Node) : Bool :=
  if node.dependencies.isEmpty then
    true
  else
    node.dependencies.all (depSatisfied nodes)

/-- `computeUnlocks` of `src/react_app.js` (lines 97-108): returns a new
list where each node carries its recomputed `unlocked` flag. -/
def computeUnlocks (nodes : List Node) : List Node :=
  nodes.map (fun node => { node with unlocked := unlockedFlag nodes node })

/-- `updateProgress` of `src/react_app.js` (lines 289-297): replaces the
progress of every node whose id matches (no clamping), persists the new
value with `localStorage.setItem` (which may throw), and returns the
list with recomputed unlock flags.  A thrown storage error propagates
out of the state updater, so no new node list is produced. -/
def updateProgress (st : Storage) (nodes : List Node) (id : String)
    (newProgress : Int) : Except Unit (Storage × List Node) :=
  let updated := nodes.map (fun n =>
    if n.id == id then { n with progress := newProgress } else n)
  match st.setItem ("kpv-react-progress-" ++ id) (toString newProgress) with
  | Except.ok st2 => Except.ok (st2, computeUnlocks updated)
  | Except.error e => Except.error e

/-- `exportProgress` of `src/react_app.js` (lines 231-246), restricted
to the data it serialises: one `{id, progress}` object per node, in
store order. -/
def exportProgress (nodes : List Node) : Json :=
  Json.arr (nodes.map (fun n =>
    Json.obj [("id", Json.str n.id), ("progress", Json.num n.progress)]))

/-- The `id` member of a snapshot entry when it is a string — the only
form that the strict comparison `entry.id === n.id` against a topic id
can accept. -/
def entryKey (e : Json) : Option String :=
  match jsGet e "id" with
  | some (Json.str s) => some s
  | _ => none

/-- The `progress` member of a snapshot entry when it is a number — the
check `typeof match.progress === 'number'` of the import loop. -/
def entryProgressNum (e : Json) : Option Int :=
  match jsGet e "progress" with
  | some (Json.num p) => some p
  | _ => none

/-- `arr.find((entry) => entry.id === n.id)` inside `importProgress`:
walks the snapshot entries in order and returns the first whose `id`
member is the given string.  Member access on a `null` entry throws a
TypeError, modelled as `Except.error`. -/
def findEntry : List Json → String → Except Unit (Option Json)
  | [], _ => Except.ok none
  | e :: rest, id =>
    match e with
    | Json.null => Except.error ()
    | _ =>
      match entryKey e with
      | some s => if s == id then Except.ok (some e) else findEntry rest id
      | none => findEntry rest id

/-- Pure (never-throwing) variant of `findEntry`, used to characterise
its behaviour on snapshots without `null` entries. -/
def findEntryP : List Json → String → Option Json
  | [], _ => none
  | e :: rest, id =>
    match entryKey e with
    | some s => if s == id then some e else findEntryP rest id
    | none => findEntryP rest id

/-- The matched-entry branch of the import loop callback (react_app.js
lines 269-273): when the matched entry's `progress` member is a number
(`typeof match.progress === 'number'`), clamp it to [0, 100], persist
it with `localStorage.setItem` (which may throw), and return the
updated node; otherwise keep the node unchanged. -/
def importNodeHit (st : Storage) (n : Node) (entry : Json) :
    Storage × Except Unit Node :=
  match entryProgressNum entry with
  | some p =>
    match st.setItem ("kpv-react-progress-" ++ n.id)
        (toString (max 0 (min 100 p))) with
    | Except.ok st1 => (st1, Except.ok { n with progress := max 0 (min 100 p) })
    | Except.error _ => (st, Except.error ())
  | none => (st, Except.ok n)

/-- One iteration of the `prev.map` callback of `importProgress`
(react_app.js lines 265-275) on node `n`: find the first snapshot entry
with `n`'s id (which throws on a `null` entry) and apply it via
`importNodeHit`; an unmatched node is returned unchanged. -/
def importNode (arr : List Json) (st : Storage) (n : Node) :
    Storage × Except Unit Node :=
  match findEntry arr n.id with
  | Except.error _ => (st, Except.error ())
  | Except.ok none => (st, Except.ok n)
  | Except.ok (some entry) => importNodeHit st n entry

/-- The whole `prev.map` loop of `importProgress`: the callback runs on
the nodes in order, threading the storage through the writes; a thrown
exception (TypeError on a `null` entry, or storage failure) aborts the
loop with the storage writes made so far. -/
def importStep (arr : List Json) : Storage → List Node → Storage × Except Unit (List Node)
  | st, [] => (st, Except.ok [])
  | st, n :: rest =>
    match importNode arr st n with
    | (st1, Except.ok n2) =>
      match importStep arr st1 rest with
      | (st2, Except.ok ns) => (st2, Except.ok (n2 :: ns))
      | (st2, Except.error e) => (st2, Except.error e)
    | (st1, Except.error e) => (st1, Except.error e)

/-- Outcome of an import attempt, as observable from
`importProgress` of `src/react_app.js` (lines 252-286). -/
inductive ImportResult where
  /-- `JSON.parse` threw; caught and reported via `console.error`;
  `setNodes` is never called. -/
  | parseError
  /-- The parsed value is not an array; the handler returns silently;
  `setNodes` is never called. -/
  | notArray
  /-- An exception escaped the state updater (TypeError on a `null`
  entry, or a storage write failure); the node state is not replaced but
  storage writes made before the throw persist. -/
  | crashed (st : Storage)
  /-- The updated storage and the new node list installed by
  `setNodes`. -/
  | ok (st : Storage) (nodes : List Node)

/-- `importProgress` of `src/react_app.js` (lines 252-286), applied to
the outcome of `JSON.parse` on the selected file (`none` = the parse
threw). -/
def importProgress (st : Storage) (parsed : Option Json) (nodes : List Node) :
    ImportResult :=
  match parsed with
  | none => ImportResult.parseError
  | some (Json.arr entries) =>
    match importStep entries st nodes with
    | (st2, Except.ok updated) => ImportResult.ok st2 (computeUnlocks updated)
    | (st2, Except.error _) => ImportResult.crashed st2
  | some _ => ImportResult.notArray

/-- The node list observable after an import attempt: the new list when
`setNodes` ran to completion, the previous list otherwise. -/
def afterImportNodes (r : ImportResult) (prev : List Node) : List Node :=
  match r with
  | ImportResult.ok _ ns => ns
  | _ => prev

/-- Pure per-node summary of what the import loop does to one node:
apply the first matching entry when its progress is a number (clamped),
otherwise keep the node. -/
def applyEntry (arr : List Json) (n : Node) : Node :=
  match findEntryP arr n.id with
  | some e =>
    match entryProgressNum e with
    | some p => { n with progress := max 0 (min 100 p) }
    | none => n
  | none => n

/-- Keep only the first snapshot entry for each id value (entries with
no string `id` are kept as they stand). -/
def dedupFirstAux (seen : List String) : List Json → List Json
  | [] => []
  | e :: rest =>
    match entryKey e with
    | some s =>
      if s ∈ seen then dedupFirstAux seen rest
      else e :: dedupFirstAux (s :: seen) rest
    | none => e :: dedupFirstAux seen rest

/-- A snapshot array with the later duplicates of each id removed. -/
def dedupFirst (entries : List Json) : List Json :=
  dedupFirstAux [] entries

/-- Progress of the topic with the given id in the node list produced by
a successful `updateProgress` call (`none` when the call threw). -/
def progressOfResult (r : Except Unit (Storage × List Node)) (id : String) :
    Option Int :=
  match r with
  | Except.ok (_, ns) => (lookupTopic ns id).map Node.progress
  | Except.error _ => none

/-- Whether an import outcome is the reported parse error. -/
def ImportResult.isParseError : ImportResult → Bool
  | ImportResult.parseError => true
  | _ => false

/-- Progress of the topic with the given id after an import attempt. -/
def importedProgressOf (r : ImportResult) (prev : List Node) (id : String) :
    Option Int :=
  (lookupTopic (afterImportNodes r prev) id).map Node.progress

/-- Unlock flag of the topic with the given id in a node list. -/
def flagOf (nodes : List Node) (id : String) : Option Bool :=
  (lookupTopic nodes id).map Node.unlocked

/-- The static curriculum of `src/react_app.js` (`initialNodes`,
lines 15-56); `src/script.js` defines the same five topics. -/
def initialNodes : List Node :=
  [ { id := "basics", title := "Programming Fundamentals",
      description := "Learn variables, control flow, functions and the building blocks of code.",
      dependencies := [], progress := 0, unlocked := false },
    { id := "datastructures", title := "Data Structures",
      description := "Study arrays, lists, stacks, queues, trees and more.  Knowing how data is organised is essential.",
      dependencies := ["basics"], progress := 0, unlocked := false },
    { id := "algorithms", title := "Algorithms",
      description := "Explore sorting, searching and other fundamental algorithms.  Learn to reason about complexity.",
      dependencies := ["basics"], progress := 0, unlocked := false },
    { id := "graphs", title := "Graph Theory",
      description := "Understand nodes and edges, traversal algorithms and shortest paths.",
      dependencies := ["datastructures", "algorithms"], progress := 0, unlocked := false },
    { id := "machinelearning", title := "Machine Learning",
      description := "Dive into supervised and unsupervised learning, regression, classification and neural networks.",
      dependencies := ["algorithms"], progress := 0, unlocked := false } ]

/-- An available, empty storage. -/
def stOk : Storage := { available := true, items := [] }

/-- An unavailable storage (every write throws). -/
def stBad : Storage := { available := false, items := [] }

/-! ## Basic lemmas about the unlock evaluator -/

theorem all_congr_mem {α : Type} {l : List α} {p q : α → Bool}
    (h : ∀ x ∈ l, p x = q x) : l.all p = l.all q := by
  induction l with
  | nil => rfl
  | cons a t ih =>
    simp only [List.all_cons, h a (by simp)]
    rw [ih (fun x hx => h x (by simp [hx]))]

theorem lookupTopic_map {f : Node → Node} (hf : ∀ n, (f n).id = n.id)
    (nodes : List Node) (d : String) :
    lookupTopic (nodes.map f) d = (lookupTopic nodes d).map f := by
  unfold lookupTopic
  rw [List.find?_map]
  have hfun : ((fun n : Node => n.id == d) ∘ f) = (fun n : Node => n.id == d) :=
    funext fun n => by simp [Function.comp, hf]
  rw [hfun]

theorem depSatisfied_map {f : Node → Node} (hid : ∀ n, (f n).id = n.id)
    (hpr : ∀ n, (f n).progress = n.progress) (nodes : List Node) (d : String) :
    depSatisfied (nodes.map f) d = depSatisfied nodes d := by
  unfold depSatisfied
  rw [lookupTopic_map hid]
  cases lookupTopic nodes d with
  | none => rfl
  | some dep => simp [hpr]

theorem unlockedFlag_map {f : Node → Node} (hid : ∀ n, (f n).id = n.id)
    (hpr : ∀ n, (f n).progress = n.progress) (nodes : List Node) (m : Node) :
    unlockedFlag (nodes.map f) m = unlockedFlag nodes m := by
  unfold unlockedFlag
  rw [funext (depSatisfied_map hid hpr nodes)]

theorem depSatisfied_eq_true (nodes : List Node) (d : String) :
    depSatisfied nodes d = true ↔
      ∃ m, lookupTopic nodes d = some m ∧ 75 ≤ m.progress := by
  unfold depSatisfied
  cases h : lookupTopic nodes d <;> simp [h]

theorem computeUnlocks_getElem? (nodes : List Node) (i : Nat) :
    (computeUnlocks nodes)[i]? =
      (nodes[i]?).map (fun n => { n with unlocked := unlockedFlag nodes n }) := by
  unfold computeUnlocks
  rw [List.getElem?_map]

theorem computeUnlocks_length (nodes : List Node) :
    (computeUnlocks nodes).length = nodes.length := by
  unfold computeUnlocks
  rw [List.length_map]

/-- C1: for every topic in the topic set, after recompute the
interactable (`unlocked`) flag is true iff every id in the topic's
prerequisite sequence resolves to a topic whose progress is at least 75.
A topic with an empty prerequisite sequence satisfies the right-hand
side vacuously (and is unlocked), a prerequisite id that does not
resolve falsifies it, and the threshold is exactly `75 ≤ progress`, so
progress 75 satisfies it while 74 does not. -/
theorem c1_unlock_rule (nodes : List Node) (n : Node)
    (h : n ∈ computeUnlocks nodes) :
    n.unlocked = true ↔
      ∀ d ∈ n.dependencies, ∃ m, lookupTopic nodes d = some m ∧ 75 ≤ m.progress := by
  rcases List.mem_map.1 h with ⟨t, _, rfl⟩
  show unlockedFlag nodes t = true ↔
      ∀ d ∈ t.dependencies, ∃ m, lookupTopic nodes d = some m ∧ 75 ≤ m.progress
  unfold unlockedFlag
  split
  · rename_i hemp
    rw [List.isEmpty_iff] at hemp
    simp [hemp]
  · rw [List.all_eq_true]
    exact forall_congr' fun d => forall_congr' fun _ => depSatisfied_eq_true nodes d

/-- A two-topic curriculum at the unlock boundary: `wBoundaryA` has no
prerequisites and progress exactly 75; `wBoundaryB` has prerequisite
`"a"`. -/
def wBoundaryA : Node :=
  { id := "a", title := "A", description := "", dependencies := [],
    progress := 75, unlocked := false }

def wBoundaryB : Node :=
  { id := "b", title := "B", description := "", dependencies := ["a"],
    progress := 0, unlocked := false }

/-- Witness for C1 at a concrete input: with the prerequisite at exactly
75 — the boundary value — the dependent topic comes out unlocked. -/
theorem c1_unlock_rule_witness :
    { wBoundaryB with unlocked := true } ∈ computeUnlocks [wBoundaryA, wBoundaryB] ∧
    (({ wBoundaryB with unlocked := true } : Node).unlocked = true ↔
      ∀ d ∈ ({ wBoundaryB with unlocked := true } : Node).dependencies,
        ∃ m, lookupTopic [wBoundaryA, wBoundaryB] d = some m ∧ 75 ≤ m.progress) :=
  ⟨by decide, c1_unlock_rule [wBoundaryA, wBoundaryB] _ (by decide)⟩

theorem unlockedFlag_computeUnlocks (nodes : List Node) (m : Node) :
    unlockedFlag (computeUnlocks nodes) m = unlockedFlag nodes m := by
  unfold computeUnlocks
  exact @unlockedFlag_map (fun node => { node with unlocked := unlockedFlag nodes node })
    (fun n => rfl) (fun n => rfl) nodes m

/-- C7: recompute is idempotent — applying `computeUnlocks` to its own
output yields the same node list (hence the same interactable flag for
every topic) as the first application. -/
theorem c7_recompute_idempotent (nodes : List Node) :
    computeUnlocks (computeUnlocks nodes) = computeUnlocks nodes := by
  show (computeUnlocks nodes).map
      (fun node => { node with unlocked := unlockedFlag (computeUnlocks nodes) node }) =
    computeUnlocks nodes
  simp only [unlockedFlag_computeUnlocks]
  unfold computeUnlocks
  rw [List.map_map]
  apply List.map_congr_left
  intro n _
  rfl

/-! ## The progress-update path -/

theorem updateProgress_ok_form (st : Storage) (nodes : List Node) (id : String)
    (v : Int) (hA : st.available = true) :
    updateProgress st nodes id v = Except.ok
      ({ st with items := ("kpv-react-progress-" ++ id, toString v) ::
          st.items.filter (fun p => !(p.1 == "kpv-react-progress-" ++ id)) },
        computeUnlocks (nodes.map (fun n =>
          if n.id == id then { n with progress := v } else n))) := by
  unfold updateProgress Storage.setItem
  rw [if_pos hA]

theorem updateProgress_fail (st : Storage) (nodes : List Node) (id : String)
    (v : Int) (hA : st.available = false) :
    updateProgress st nodes id v = Except.error () := by
  unfold updateProgress Storage.setItem
  rw [if_neg]
  rw [hA]
  exact Bool.false_ne_true

/-- C2 counterexample: the progress-update path does not clamp.  Calling
`updateProgress` with the out-of-range value 150 on the shipped
curriculum stores progress 150 for `basics`, not
`min 100 (max 0 150) = 100` as the claim requires. -/
theorem c2_counterexample :
    progressOfResult (updateProgress stOk initialNodes "basics" 150) "basics" =
      some 150 ∧
    progressOfResult (updateProgress stOk initialNodes "basics" 150) "basics" ≠
      some (min 100 (max 0 150)) := by
  constructor
  · rfl
  · decide

/-- C2 amended: `updateProgress` accepts any integer value and stores it
unchanged — no clamping happens on this path — so the stored progress of
the target topic after a successful call is exactly the given value,
while every other topic keeps its progress. -/
theorem c2_amended (st : Storage) (nodes : List Node) (id : String) (v : Int)
    (hA : st.available = true) :
    ∃ st2 : Storage, ∃ ns : List Node,
      updateProgress st nodes id v = Except.ok (st2, ns) ∧
      ns.length = nodes.length ∧
      ∀ i : Nat, ∀ n : Node, nodes[i]? = some n → ∃ n2 : Node, ns[i]? = some n2 ∧
        n2.progress = (if n.id = id then v else n.progress) := by
  refine ⟨_, _, updateProgress_ok_form st nodes id v hA, ?_, ?_⟩
  · rw [computeUnlocks_length, List.length_map]
  · intro i n hn
    rw [computeUnlocks_getElem?, List.getElem?_map, hn]
    refine ⟨_, rfl, ?_⟩
    by_cases h : n.id = id
    · simp [h]
    · simp [h]

/-- Witness for C2 amended: storing 150 on a one-topic curriculum. -/
theorem c2_amended_witness :
    stOk.available = true ∧
    (∃ st2 : Storage, ∃ ns : List Node,
      updateProgress stOk [wBoundaryA] "a" 150 = Except.ok (st2, ns) ∧
      ns.length = ([wBoundaryA] : List Node).length ∧
      ∀ i : Nat, ∀ n : Node, ([wBoundaryA] : List Node)[i]? = some n →
        ∃ n2 : Node, ns[i]? = some n2 ∧
          n2.progress = (if n.id = "a" then 150 else n.progress)) :=
  ⟨rfl, c2_amended stOk [wBoundaryA] "a" 150 rfl⟩

/-- C8 counterexample: when the durable-storage write fails, the failure
is not caught — `updateProgress` propagates the exception and produces
no updated state, contradicting the claim that the progress change
still applies in memory and the caller does not crash. -/
theorem c8_counterexample :
    updateProgress stBad initialNodes "basics" 50 = Except.error () ∧
    ¬ ∃ p, updateProgress stBad initialNodes "basics" 50 = Except.ok p := by
  refine ⟨rfl, ?_⟩
  rintro ⟨p, hp⟩
  rw [show updateProgress stBad initialNodes "basics" 50 = Except.error () from rfl] at hp
  exact Except.noConfusion hp

/-- C8 amended: there is no try/catch around the storage write — when
the storage is unavailable, `updateProgress` propagates the failure to
its caller, and (in the React implementation) the in-memory progress
change is lost with it. -/
theorem c8_amended (st : Storage) (nodes : List Node) (id : String) (v : Int)
    (hA : st.available = false) :
    updateProgress st nodes id v = Except.error () :=
  updateProgress_fail st nodes id v hA

/-- Witness for C8 amended: a concrete failing write. -/
theorem c8_amended_witness :
    stBad.available = false ∧
    updateProgress stBad [wBoundaryA] "a" 25 = Except.error () :=
  ⟨rfl, c8_amended stBad [wBoundaryA] "a" 25 rfl⟩

/-- C9: a successful `updateProgress` call changes only the progress of
the topics with the given id (plus the derived `unlocked` flags): the
id, title, description and prerequisite sequence of every topic are
unchanged, and so is the progress of every topic with a different id. -/
theorem c9_update_frame (st : Storage) (nodes : List Node) (id : String) (v : Int)
    (st2 : Storage) (ns : List Node)
    (h : updateProgress st nodes id v = Except.ok (st2, ns)) :
    ns.length = nodes.length ∧
    ∀ i : Nat, ∀ n : Node, nodes[i]? = some n → ∃ n2 : Node, ns[i]? = some n2 ∧
      n2.id = n.id ∧ n2.title = n.title ∧ n2.description = n.description ∧
      n2.dependencies = n.dependencies ∧
      (n.id ≠ id → n2.progress = n.progress) := by
  by_cases hA : st.available = true
  · rw [updateProgress_ok_form st nodes id v hA] at h
    rw [Except.ok.injEq, Prod.mk.injEq] at h
    rcases h with ⟨-, hns⟩
    subst hns
    constructor
    · rw [computeUnlocks_length, List.length_map]
    · intro i n hn
      rw [computeUnlocks_getElem?, List.getElem?_map, hn]
      refine ⟨_, rfl, ?_⟩
      by_cases hid : n.id = id
      · simp [hid]
      · simp [hid]
  · rw [updateProgress_fail st nodes id v (by simpa using hA)] at h
    exact Except.noConfusion h

/-- Witness for C9 on a one-topic curriculum. -/
theorem c9_update_frame_witness :
    updateProgress stOk [wBoundaryA] "a" 50 =
      Except.ok ({ available := true, items := [("kpv-react-progress-a", "50")] },
        [{ wBoundaryA with progress := 50, unlocked := true }]) ∧
    (([{ wBoundaryA with progress := 50, unlocked := true }] : List Node).length =
        ([wBoundaryA] : List Node).length ∧
      ∀ i : Nat, ∀ n : Node, ([wBoundaryA] : List Node)[i]? = some n →
        ∃ n2 : Node,
          ([{ wBoundaryA with progress := 50, unlocked := true }] : List Node)[i]? = some n2 ∧
          n2.id = n.id ∧ n2.title = n.title ∧ n2.description = n.description ∧
          n2.dependencies = n.dependencies ∧
          (n.id ≠ "a" → n2.progress = n.progress)) :=
  ⟨rfl, c9_update_frame stOk [wBoundaryA] "a" 50 _ _ rfl⟩

/-! ## The effect of a single progress change on the unlock flags -/

/-- The curriculum with `basics` raised to exactly 75: both of its
dependents (`datastructures` and `algorithms`) are unlocked. -/
def c6Before : List Node :=
  initialNodes.map (fun n => if n.id == "basics" then { n with progress := 75 } else n)

/-- The same curriculum after the single change lowering `basics` to
50. -/
def c6After : List Node :=
  c6Before.map (fun n => if n.id == "basics" then { n with progress := 50 } else n)

/-- C6 counterexample: lowering the progress of `basics` from 75 to 50
flips `interactable(datastructures)` to false as the claim says for
`T = datastructures` — but `algorithms`, a topic other than `T` that
shares the prerequisite, also has its flag flipped by that single
change, so "no topic other than T has its interactable flag changed" is
false. -/
theorem c6_counterexample :
    flagOf (computeUnlocks c6Before) "datastructures" = some true ∧
    flagOf (computeUnlocks c6After) "datastructures" = some false ∧
    flagOf (computeUnlocks c6Before) "algorithms" = some true ∧
    flagOf (computeUnlocks c6After) "algorithms" = some false := by
  exact ⟨rfl, rfl, rfl, rfl⟩

/-- C6 amended: lowering one prerequisite id `pid` below 75 makes every
topic that lists `pid` among its prerequisites locked (not only the one
topic `T` of the claim), and the flag of every topic that does not list
`pid` among its prerequisites is unchanged by that single progress
change. -/
theorem c6_amended (nodes : List Node) (pid : String) (v : Int)
    (hprev : ∃ m, lookupTopic nodes pid = some m ∧ 75 ≤ m.progress)
    (hv : v < 75) :
    (∀ t ∈ computeUnlocks (nodes.map (fun n =>
        if n.id == pid then { n with progress := v } else n)),
      pid ∈ t.dependencies → t.unlocked = false) ∧
    (∀ i : Nat, ∀ t : Node, nodes[i]? = some t → pid ∉ t.dependencies →
      ∃ t1 : Node, ∃ t2 : Node,
        (computeUnlocks nodes)[i]? = some t1 ∧
        (computeUnlocks (nodes.map (fun n =>
          if n.id == pid then { n with progress := v } else n)))[i]? = some t2 ∧
        t2.unlocked = t1.unlocked) := by
  have hid : ∀ n : Node,
      ((fun n => if n.id == pid then { n with progress := v } else n) n).id = n.id := by
    intro n
    by_cases h : (n.id == pid) = true <;> simp [h]
  have hlowsat : depSatisfied (nodes.map (fun n =>
      if n.id == pid then { n with progress := v } else n)) pid = false := by
    rcases hprev with ⟨m, hm, -⟩
    unfold depSatisfied
    rw [lookupTopic_map hid, hm]
    have hm2 : List.find? (fun n => n.id == pid) nodes = some m := hm
    have hmid0 := List.find?_some hm2
    have hmid : (m.id == pid) = true := hmid0
    dsimp only [Option.map]
    rw [if_pos hmid]
    simp only [decide_eq_false_iff_not, not_le]
    exact hv
  constructor
  · intro t ht hpd
    rcases List.mem_map.1 ht with ⟨t0, _, rfl⟩
    show unlockedFlag _ t0 = false
    have hpd0 : pid ∈ t0.dependencies := hpd
    unfold unlockedFlag
    rw [if_neg (by simp [List.isEmpty_iff, List.ne_nil_of_mem hpd0])]
    rw [List.all_eq_false]
    refine ⟨pid, hpd0, ?_⟩
    rw [hlowsat]
    exact Bool.false_ne_true
  · intro i t hti hnp
    refine ⟨_, _, by rw [computeUnlocks_getElem?, hti]; rfl,
      by rw [computeUnlocks_getElem?, List.getElem?_map, hti]; rfl, ?_⟩
    show unlockedFlag (nodes.map (fun n =>
        if n.id == pid then { n with progress := v } else n))
      ((fun n => if n.id == pid then { n with progress := v } else n) t) =
      unlockedFlag nodes t
    have hdeps : ((fun n => if n.id == pid then { n with progress := v } else n) t).dependencies
        = t.dependencies := by
      by_cases h : (t.id == pid) = true <;> simp [h]
    unfold unlockedFlag
    rw [hdeps]
    split
    · rfl
    · apply all_congr_mem
      intro d hd
      have hdne : d ≠ pid := fun he => hnp (he ▸ hd)
      unfold depSatisfied
      rw [lookupTopic_map hid]
      cases hm : lookupTopic nodes d with
      | none => rfl
      | some m =>
        have hm2 : List.find? (fun n => n.id == d) nodes = some m := hm
        have hmd0 := List.find?_some hm2
        have hmd : (m.id == d) = true := hmd0
        rw [beq_iff_eq] at hmd
        have hmp : m.id ≠ pid := by
          rw [hmd]
          exact hdne
        simp [hmp]

/-- Witness for C6 amended at a concrete two-topic curriculum. -/
theorem c6_amended_witness :
    (∃ m, lookupTopic [wBoundaryA, wBoundaryB] "a" = some m ∧ 75 ≤ m.progress) ∧
    (50 : Int) < 75 ∧
    ((∀ t ∈ computeUnlocks ([wBoundaryA, wBoundaryB].map (fun n =>
        if n.id == "a" then { n with progress := 50 } else n)),
      "a" ∈ t.dependencies → t.unlocked = false) ∧
    (∀ i : Nat, ∀ t : Node, ([wBoundaryA, wBoundaryB] : List Node)[i]? = some t →
      "a" ∉ t.dependencies →
      ∃ t1 : Node, ∃ t2 : Node,
        (computeUnlocks [wBoundaryA, wBoundaryB])[i]? = some t1 ∧
        (computeUnlocks ([wBoundaryA, wBoundaryB].map (fun n =>
          if n.id == "a" then { n with progress := 50 } else n)))[i]? = some t2 ∧
        t2.unlocked = t1.unlocked)) :=
  ⟨⟨wBoundaryA, by decide⟩, by decide,
    c6_amended [wBoundaryA, wBoundaryB] "a" 50 ⟨wBoundaryA, by decide⟩ (by decide)⟩

/-! ## Lemmas about the snapshot import loop -/

theorem findEntryP_cons (e : Json) (rest : List Json) (id : String) :
    findEntryP (e :: rest) id =
      (match entryKey e with
       | some s => if s == id then some e else findEntryP rest id
       | none => findEntryP rest id) := rfl

theorem findEntry_cons_of_ne (e : Json) (rest : List Json) (id : String)
    (hne : e ≠ Json.null) :
    findEntry (e :: rest) id =
      (match entryKey e with
       | some s => if s == id then Except.ok (some e) else findEntry rest id
       | none => findEntry rest id) := by
  cases e with
  | null => exact absurd rfl hne
  | bool b => rfl
  | num n => rfl
  | str s => rfl
  | arr xs => rfl
  | obj fs => rfl

theorem findEntry_eq : ∀ (arr : List Json), (∀ e ∈ arr, e ≠ Json.null) →
    ∀ id, findEntry arr id = Except.ok (findEntryP arr id) := by
  intro arr
  induction arr with
  | nil => intro _ _; rfl
  | cons e rest ih =>
    intro h id
    have hne : e ≠ Json.null := h e (List.mem_cons_self e rest)
    have hr : ∀ x ∈ rest, x ≠ Json.null := fun x hx => h x (List.mem_cons_of_mem e hx)
    rw [findEntry_cons_of_ne e rest id hne, findEntryP_cons]
    cases hk : entryKey e with
    | none => exact ih hr id
    | some s =>
      cases hs : s == id with
      | false =>
        simp only [hs, Bool.false_eq_true, if_false]
        exact ih hr id
      | true => simp only [hs, if_true]

theorem importNode_ok (arr : List Json) (st : Storage) (n : Node)
    (hA : st.available = true) (hN : ∀ e ∈ arr, e ≠ Json.null) :
    ∃ st1 : Storage, importNode arr st n = (st1, Except.ok (applyEntry arr n)) ∧
      st1.available = true := by
  unfold importNode applyEntry
  rw [findEntry_eq arr hN n.id]
  cases hfe : findEntryP arr n.id with
  | none => exact ⟨st, rfl, hA⟩
  | some e =>
    show ∃ st1 : Storage, importNodeHit st n e =
      (st1, Except.ok (match entryProgressNum e with
        | some p => { n with progress := max 0 (min 100 p) }
        | none => n)) ∧ st1.available = true
    unfold importNodeHit
    cases hpn : entryProgressNum e with
    | none => exact ⟨st, rfl, hA⟩
    | some p =>
      have hset : st.setItem ("kpv-react-progress-" ++ n.id)
          (toString (max 0 (min 100 p))) = Except.ok
            { st with items := ("kpv-react-progress-" ++ n.id,
                toString (max 0 (min 100 p))) ::
              st.items.filter (fun q => !(q.1 == "kpv-react-progress-" ++ n.id)) } := by
        unfold Storage.setItem
        rw [if_pos hA]
      change ∃ st1 : Storage,
        (match st.setItem ("kpv-react-progress-" ++ n.id)
            (toString (max 0 (min 100 p))) with
          | Except.ok st1 => (st1, Except.ok { n with progress := max 0 (min 100 p) })
          | Except.error _ => (st, Except.error ())) =
          (st1, Except.ok { n with progress := max 0 (min 100 p) }) ∧
        st1.available = true
      rw [hset]
      exact ⟨_, rfl, hA⟩

theorem importStep_ok : ∀ (nodes : List Node) (st : Storage) (arr : List Json),
    st.available = true → (∀ e ∈ arr, e ≠ Json.null) →
    ∃ st2 : Storage,
      importStep arr st nodes = (st2, Except.ok (nodes.map (applyEntry arr))) ∧
      st2.available = true := by
  intro nodes
  induction nodes with
  | nil => intro st arr hA _; exact ⟨st, rfl, hA⟩
  | cons n rest ih =>
    intro st arr hA hN
    rcases importNode_ok arr st n hA hN with ⟨st1, hni, hA1⟩
    rcases ih st1 arr hA1 hN with ⟨st2, hstep, hA2⟩
    refine ⟨st2, ?_, hA2⟩
    rw [importStep, hni]
    change (match importStep arr st1 rest with
      | (st2, Except.ok ns) => (st2, Except.ok (applyEntry arr n :: ns))
      | (st2, Except.error e) => (st2, Except.error e)) =
      (st2, Except.ok ((n :: rest).map (applyEntry arr)))
    rw [hstep]
    rfl

theorem importProgress_ok (st : Storage) (entries : List Json) (nodes : List Node)
    (hA : st.available = true) (hN : ∀ e ∈ entries, e ≠ Json.null) :
    ∃ st2 : Storage, importProgress st (some (Json.arr entries)) nodes =
      ImportResult.ok st2 (computeUnlocks (nodes.map (applyEntry entries))) := by
  rcases importStep_ok nodes st entries hA hN with ⟨st2, heq, -⟩
  refine ⟨st2, ?_⟩
  show (match importStep entries st nodes with
    | (st2, Except.ok updated) => ImportResult.ok st2 (computeUnlocks updated)
    | (st2, Except.error _) => ImportResult.crashed st2) =
    ImportResult.ok st2 (computeUnlocks (nodes.map (applyEntry entries)))
  rw [heq]

/-! ## C3: when import fails, and what failure does to the state -/

/-- C3 counterexample: a JSON array containing an entry missing the
`id` field is not a ParseError — the offending entry is silently
dropped and the remaining entry still mutates the state (`basics` moves
from 0 to 50). -/
theorem c3_counterexample :
    (importProgress stOk (some (Json.arr
      [Json.obj [("progress", Json.num 50)],
       Json.obj [("id", Json.str "basics"), ("progress", Json.num 50)]]))
      initialNodes).isParseError = false ∧
    importedProgressOf (importProgress stOk (some (Json.arr
      [Json.obj [("progress", Json.num 50)],
       Json.obj [("id", Json.str "basics"), ("progress", Json.num 50)]]))
      initialNodes) initialNodes "basics" = some 50 := ⟨rfl, rfl⟩

/-- C3 amended: `importProgress` reports ParseError exactly when the
bytes are not parseable as JSON; a parseable input that is not an array
is silently ignored (`notArray`, no report); in both cases no state
mutation occurs — every topic keeps its progress and interactable flag.
(An array entry missing an `id` field is not an error: it is silently
dropped while the remaining entries still apply.) -/
theorem c3_amended (st : Storage) (prev : List Node) (p : Option Json) :
    (importProgress st p prev = ImportResult.parseError ↔ p = none) ∧
    (∀ j : Json, p = some j → (∀ es : List Json, j ≠ Json.arr es) →
      importProgress st p prev = ImportResult.notArray) ∧
    ((importProgress st p prev = ImportResult.parseError ∨
      importProgress st p prev = ImportResult.notArray) →
      afterImportNodes (importProgress st p prev) prev = prev) := by
  refine ⟨⟨?_, ?_⟩, ?_, ?_⟩
  · intro h
    cases p with
    | none => rfl
    | some j =>
      cases j with
      | arr es =>
        have h2 : (match importStep es st prev with
          | (st2, Except.ok updated) => ImportResult.ok st2 (computeUnlocks updated)
          | (st2, Except.error _) => ImportResult.crashed st2) =
            ImportResult.parseError := h
        rcases himp : importStep es st prev with ⟨st2, r⟩
        rw [himp] at h2
        cases r with
        | ok u => exact ImportResult.noConfusion h2
        | error e => exact ImportResult.noConfusion h2
      | null => exact ImportResult.noConfusion h
      | bool b => exact ImportResult.noConfusion h
      | num n => exact ImportResult.noConfusion h
      | str s2 => exact ImportResult.noConfusion h
      | obj fs => exact ImportResult.noConfusion h
  · rintro rfl
    rfl
  · rintro j rfl hne
    cases j with
    | arr es => exact absurd rfl (hne es)
    | null => rfl
    | bool b => rfl
    | num n => rfl
    | str s2 => rfl
    | obj fs => rfl
  · intro h
    rcases h with h | h <;> rw [h] <;> rfl

/-- Witness for C3 amended at a concrete non-array input. -/
theorem c3_amended_witness :
    ((importProgress stOk (some (Json.num 3)) initialNodes = ImportResult.parseError ↔
      (some (Json.num 3) : Option Json) = none) ∧
    (∀ j : Json, (some (Json.num 3) : Option Json) = some j →
      (∀ es : List Json, j ≠ Json.arr es) →
      importProgress stOk (some (Json.num 3)) initialNodes = ImportResult.notArray) ∧
    ((importProgress stOk (some (Json.num 3)) initialNodes = ImportResult.parseError ∨
      importProgress stOk (some (Json.num 3)) initialNodes = ImportResult.notArray) →
      afterImportNodes (importProgress stOk (some (Json.num 3)) initialNodes)
        initialNodes = initialNodes)) :=
  c3_amended stOk initialNodes (some (Json.num 3))

/-! ## C4: what a well-formed snapshot import does to each topic -/

theorem entryKey_isSome_ne_null {e : Json} (h : (entryKey e).isSome = true) :
    e ≠ Json.null := by
  intro he
  subst he
  exact Bool.false_ne_true h

theorem applyEntry_id (arr : List Json) (n : Node) :
    (applyEntry arr n).id = n.id := by
  unfold applyEntry
  cases hfe : findEntryP arr n.id with
  | none => rfl
  | some e =>
    cases hpn : entryProgressNum e with
    | none =>
      change (match entryProgressNum e with
        | some p => { n with progress := max 0 (min 100 p) }
        | none => n).id = n.id
      rw [hpn]
    | some p =>
      change (match entryProgressNum e with
        | some p => { n with progress := max 0 (min 100 p) }
        | none => n).id = n.id
      rw [hpn]

theorem importNode_congr (arr arr2 : List Json) (st : Storage) (n : Node)
    (h : findEntry arr n.id = findEntry arr2 n.id) :
    importNode arr st n = importNode arr2 st n := by
  unfold importNode
  rw [h]

theorem importStep_congr : ∀ (nodes : List Node) (arr arr2 : List Json),
    (∀ n ∈ nodes, findEntry arr n.id = findEntry arr2 n.id) →
    ∀ st, importStep arr st nodes = importStep arr2 st nodes := by
  intro nodes
  induction nodes with
  | nil => intro arr arr2 _ st; rfl
  | cons n rest ih =>
    intro arr arr2 h st
    have ihAll : ∀ st3, importStep arr st3 rest = importStep arr2 st3 rest :=
      ih arr arr2 (fun m hm => h m (List.mem_cons_of_mem n hm))
    rw [importStep, importStep,
      importNode_congr arr arr2 st n (h n (List.mem_cons_self n rest))]
    rcases hni : importNode arr2 st n with ⟨st1, r⟩
    cases r with
    | ok n2 =>
      change (match importStep arr st1 rest with
        | (st2, Except.ok ns) => (st2, Except.ok (n2 :: ns))
        | (st2, Except.error e) => (st2, Except.error e)) =
        (match importStep arr2 st1 rest with
        | (st2, Except.ok ns) => (st2, Except.ok (n2 :: ns))
        | (st2, Except.error e) => (st2, Except.error e))
      rw [ihAll st1]
    | error e => rfl

theorem importProgress_congr (st : Storage) (nodes : List Node)
    (arr arr2 : List Json)
    (h : ∀ n ∈ nodes, findEntry arr n.id = findEntry arr2 n.id) :
    importProgress st (some (Json.arr arr)) nodes =
      importProgress st (some (Json.arr arr2)) nodes := by
  show (match importStep arr st nodes with
    | (st2, Except.ok updated) => ImportResult.ok st2 (computeUnlocks updated)
    | (st2, Except.error _) => ImportResult.crashed st2) =
    (match importStep arr2 st nodes with
    | (st2, Except.ok updated) => ImportResult.ok st2 (computeUnlocks updated)
    | (st2, Except.error _) => ImportResult.crashed st2)
  rw [importStep_congr nodes arr arr2 h st]

theorem findEntryP_filter_known : ∀ (entries : List Json) (nodes : List Node)
    (n : Node), n ∈ nodes →
    findEntryP (entries.filter (fun e =>
      nodes.any (fun m => entryKey e == some m.id))) n.id =
      findEntryP entries n.id := by
  intro entries
  induction entries with
  | nil => intro nodes n _; rfl
  | cons e rest ih =>
    intro nodes n hn
    rw [List.filter_cons]
    cases hc : nodes.any (fun m => entryKey e == some m.id) with
    | true =>
      rw [if_pos rfl]
      rw [findEntryP_cons, findEntryP_cons]
      cases hk : entryKey e with
      | some s =>
        cases hs : s == n.id with
        | true => simp [hs]
        | false =>
          simp only [hs, Bool.false_eq_true, if_false]
          exact ih nodes n hn
      | none => exact ih nodes n hn
    | false =>
      rw [if_neg Bool.false_ne_true]
      rw [findEntryP_cons]
      cases hk : entryKey e with
      | some s =>
        have hs : (s == n.id) = false := by
          cases hsid : s == n.id with
          | false => rfl
          | true =>
            exfalso
            have hany : nodes.any (fun m => entryKey e == some m.id) = true := by
              rw [List.any_eq_true]
              refine ⟨n, hn, ?_⟩
              rw [hk]
              rw [beq_iff_eq] at hsid ⊢
              rw [hsid]
            rw [hc] at hany
            exact Bool.false_ne_true hany
        simp only [hs, Bool.false_eq_true, if_false]
        exact ih nodes n hn
      | none => exact ih nodes n hn

/-- C4 counterexample: in the snapshot
`[{id: "basics", progress: "x"}, {id: "basics", progress: 50}]` the
first entry's progress is not a number.  The claim says such an entry
is dropped and the remaining matched entry (progress 50) applies, but
the code matches each topic only against the *first* entry with its id:
`basics` keeps progress 0 instead of receiving 50. -/
theorem c4_counterexample :
    importedProgressOf (importProgress stOk (some (Json.arr
      [Json.obj [("id", Json.str "basics"), ("progress", Json.str "x")],
       Json.obj [("id", Json.str "basics"), ("progress", Json.num 50)]]))
      initialNodes) initialNodes "basics" = some 0 ∧
    importedProgressOf (importProgress stOk (some (Json.arr
      [Json.obj [("id", Json.str "basics"), ("progress", Json.str "x")],
       Json.obj [("id", Json.str "basics"), ("progress", Json.num 50)]]))
      initialNodes) initialNodes "basics" ≠ some 50 := by
  constructor
  · rfl
  · decide

/-- C4 amended: for a well-formed snapshot array (every entry carries a
string `id`), the import succeeds without error; entries whose id
matches no known topic are dropped (filtering them away does not change
the result); a topic whose id matches no entry keeps its progress; and
each topic is governed by the *first* entry bearing its id — applied
clamped to [0, 100] when its progress is a number, and leaving the
topic unchanged when its progress is not a number (even if a later
entry with the same id has numeric progress). -/
theorem c4_amended (st : Storage) (entries : List Json) (nodes : List Node)
    (hA : st.available = true)
    (hWF : ∀ e ∈ entries, (entryKey e).isSome = true) :
    ∃ st2 : Storage, ∃ ns : List Node,
      importProgress st (some (Json.arr entries)) nodes = ImportResult.ok st2 ns ∧
      ns.length = nodes.length ∧
      (∀ i : Nat, ∀ n : Node, nodes[i]? = some n → ∃ n2 : Node, ns[i]? = some n2 ∧
        n2.id = n.id ∧
        (findEntryP entries n.id = none → n2.progress = n.progress) ∧
        (∀ e : Json, findEntryP entries n.id = some e →
          (∀ p : Int, entryProgressNum e = some p →
            n2.progress = max 0 (min 100 p)) ∧
          (entryProgressNum e = none → n2.progress = n.progress))) ∧
      importProgress st (some (Json.arr entries)) nodes =
        importProgress st (some (Json.arr (entries.filter (fun e =>
          nodes.any (fun m => entryKey e == some m.id))))) nodes := by
  have hN : ∀ e ∈ entries, e ≠ Json.null :=
    fun e he => entryKey_isSome_ne_null (hWF e he)
  rcases importProgress_ok st entries nodes hA hN with ⟨st2, heq⟩
  refine ⟨st2, _, heq, ?_, ?_, ?_⟩
  · rw [computeUnlocks_length, List.length_map]
  · intro i n hn
    rw [computeUnlocks_getElem?, List.getElem?_map, hn]
    refine ⟨_, rfl, ?_, ?_, ?_⟩
    · exact applyEntry_id entries n
    · intro hnone
      show (applyEntry entries n).progress = n.progress
      unfold applyEntry
      rw [hnone]
    · intro e hfe
      constructor
      · intro p hpn
        show (applyEntry entries n).progress = max 0 (min 100 p)
        unfold applyEntry
        rw [hfe]
        change (match entryProgressNum e with
          | some p => { n with progress := max 0 (min 100 p) }
          | none => n).progress = max 0 (min 100 p)
        rw [hpn]
      · intro hpn
        show (applyEntry entries n).progress = n.progress
        unfold applyEntry
        rw [hfe]
        change (match entryProgressNum e with
          | some p => { n with progress := max 0 (min 100 p) }
          | none => n).progress = n.progress
        rw [hpn]
  · apply importProgress_congr
    intro n hn
    have hNf : ∀ e ∈ entries.filter (fun e =>
        nodes.any (fun m => entryKey e == some m.id)), e ≠ Json.null :=
      fun e he => hN e (List.mem_of_mem_filter he)
    rw [findEntry_eq entries hN n.id, findEntry_eq _ hNf n.id,
      findEntryP_filter_known entries nodes n hn]

/-- Witness for C4 amended: importing `[{id: "a", progress: 150}]` into
the one-topic curriculum. -/
theorem c4_amended_witness :
    stOk.available = true ∧
    (∀ e ∈ [Json.obj [("id", Json.str "a"), ("progress", Json.num 150)]],
      (entryKey e).isSome = true) ∧
    (∃ st2 : Storage, ∃ ns : List Node,
      importProgress stOk (some (Json.arr
        [Json.obj [("id", Json.str "a"), ("progress", Json.num 150)]]))
        [wBoundaryA] = ImportResult.ok st2 ns ∧
      ns.length = ([wBoundaryA] : List Node).length ∧
      (∀ i : Nat, ∀ n : Node, ([wBoundaryA] : List Node)[i]? = some n →
        ∃ n2 : Node, ns[i]? = some n2 ∧
        n2.id = n.id ∧
        (findEntryP [Json.obj [("id", Json.str "a"), ("progress", Json.num 150)]]
            n.id = none → n2.progress = n.progress) ∧
        (∀ e : Json, findEntryP
            [Json.obj [("id", Json.str "a"), ("progress", Json.num 150)]]
            n.id = some e →
          (∀ p : Int, entryProgressNum e = some p →
            n2.progress = max 0 (min 100 p)) ∧
          (entryProgressNum e = none → n2.progress = n.progress))) ∧
      importProgress stOk (some (Json.arr
        [Json.obj [("id", Json.str "a"), ("progress", Json.num 150)]]))
        [wBoundaryA] =
        importProgress stOk (some (Json.arr
          ([Json.obj [("id", Json.str "a"), ("progress", Json.num 150)]].filter
            (fun e => ([wBoundaryA] : List Node).any
              (fun m => entryKey e == some m.id))))) [wBoundaryA]) :=
  ⟨rfl, by decide,
    c4_amended stOk [Json.obj [("id", Json.str "a"), ("progress", Json.num 150)]]
      [wBoundaryA] rfl (by decide)⟩

/-! ## C5: export/import round trip -/

theorem lookupTopic_nodup : ∀ (nodes : List Node),
    (nodes.map Node.id).Nodup → ∀ n ∈ nodes, lookupTopic nodes n.id = some n := by
  intro nodes
  induction nodes with
  | nil => intro _ n hn; cases hn
  | cons m rest ih =>
    intro hU n hn
    rw [List.map_cons, List.nodup_cons] at hU
    rcases List.mem_cons.1 hn with rfl | hn2
    · unfold lookupTopic
      rw [List.find?_cons_of_pos]
      simp
    · unfold lookupTopic
      rw [List.find?_cons_of_neg]
      · exact ih hU.2 n hn2
      · simp only [beq_iff_eq]
        intro he
        exact hU.1 (he ▸ List.mem_map_of_mem Node.id hn2)

theorem findEntryP_export : ∀ (nodes : List Node) (d : String),
    findEntryP (nodes.map (fun n =>
      Json.obj [("id", Json.str n.id), ("progress", Json.num n.progress)])) d =
    (lookupTopic nodes d).map (fun n =>
      Json.obj [("id", Json.str n.id), ("progress", Json.num n.progress)]) := by
  intro nodes d
  induction nodes with
  | nil => rfl
  | cons n rest ih =>
    rw [List.map_cons, findEntryP_cons]
    have hk : entryKey (Json.obj [("id", Json.str n.id),
        ("progress", Json.num n.progress)]) = some n.id := rfl
    rw [hk]
    cases hc : n.id == d with
    | true =>
      unfold lookupTopic
      rw [List.find?_cons_of_pos]
      · simp [hc]
      · exact hc
    | false =>
      unfold lookupTopic
      rw [List.find?_cons_of_neg]
      · simp only [hc, Bool.false_eq_true, if_false]
        exact ih
      · simp [hc]

/-- C5: for every topic set satisfying the data-model invariants of the
spec (unique topic ids, progress within [0, 100]) and an available
storage, feeding the output of `exportProgress` into `importProgress`
succeeds and restores every topic's progress to its value at the time
of export. -/
theorem c5_roundtrip (st : Storage) (nodes : List Node)
    (hA : st.available = true)
    (hU : (nodes.map Node.id).Nodup)
    (hB : ∀ n ∈ nodes, 0 ≤ n.progress ∧ n.progress ≤ 100) :
    ∃ st2 : Storage, ∃ ns : List Node,
      importProgress st (some (exportProgress nodes)) nodes =
        ImportResult.ok st2 ns ∧
      ns.map Node.progress = nodes.map Node.progress := by
  unfold exportProgress
  have hN : ∀ e ∈ nodes.map (fun n =>
      Json.obj [("id", Json.str n.id), ("progress", Json.num n.progress)]),
      e ≠ Json.null := by
    intro e he
    rcases List.mem_map.1 he with ⟨n, -, rfl⟩
    exact fun h => Json.noConfusion h
  rcases importProgress_ok st _ nodes hA hN with ⟨st2, heq⟩
  have happ : ∀ n ∈ nodes, applyEntry (nodes.map (fun n =>
      Json.obj [("id", Json.str n.id), ("progress", Json.num n.progress)])) n = n := by
    intro n hn
    unfold applyEntry
    rw [findEntryP_export, lookupTopic_nodup nodes hU n hn]
    rcases hB n hn with ⟨h0, h100⟩
    have hclamp : max 0 (min 100 n.progress) = n.progress := by omega
    have hent : entryProgressNum (Json.obj [("id", Json.str n.id),
        ("progress", Json.num n.progress)]) = some n.progress := rfl
    change (match entryProgressNum (Json.obj [("id", Json.str n.id),
        ("progress", Json.num n.progress)]) with
      | some p => { n with progress := max 0 (min 100 p) }
      | none => n) = n
    rw [hent]
    change ({ n with progress := max 0 (min 100 n.progress) } : Node) = n
    rw [hclamp]
  have hmap : nodes.map (applyEntry (nodes.map (fun n =>
      Json.obj [("id", Json.str n.id), ("progress", Json.num n.progress)]))) = nodes := by
    have h1 := List.map_congr_left happ
    rw [h1, List.map_id']
  refine ⟨st2, _, heq, ?_⟩
  rw [hmap]
  unfold computeUnlocks
  rw [List.map_map]
  exact List.map_congr_left (fun n _ => rfl)

/-- Witness for C5 on a two-topic curriculum with in-range progress
values and distinct ids. -/
theorem c5_roundtrip_witness :
    stOk.available = true ∧
    (([wBoundaryA, wBoundaryB] : List Node).map Node.id).Nodup ∧
    (∀ n ∈ ([wBoundaryA, wBoundaryB] : List Node),
      0 ≤ n.progress ∧ n.progress ≤ 100) ∧
    (∃ st2 : Storage, ∃ ns : List Node,
      importProgress stOk (some (exportProgress [wBoundaryA, wBoundaryB]))
        [wBoundaryA, wBoundaryB] = ImportResult.ok st2 ns ∧
      ns.map Node.progress = ([wBoundaryA, wBoundaryB] : List Node).map Node.progress) :=
  ⟨rfl, by decide, by decide,
    c5_roundtrip stOk [wBoundaryA, wBoundaryB] rfl (by decide) (by decide)⟩

/-! ## C10: duplicate snapshot entries -/

theorem mem_dedupFirstAux : ∀ (l : List Json) (seen : List String) (e : Json),
    e ∈ dedupFirstAux seen l → e ∈ l := by
  intro l
  induction l with
  | nil => intro seen e he; cases he
  | cons a rest ih =>
    intro seen e he
    rw [dedupFirstAux] at he
    cases hk : entryKey a with
    | none =>
      rw [hk] at he
      change e ∈ a :: dedupFirstAux seen rest at he
      rcases List.mem_cons.1 he with rfl | he2
      · exact List.mem_cons_self _ _
      · exact List.mem_cons_of_mem a (ih seen e he2)
    | some s =>
      rw [hk] at he
      change e ∈ (if s ∈ seen then dedupFirstAux seen rest
        else a :: dedupFirstAux (s :: seen) rest) at he
      by_cases hs : s ∈ seen
      · rw [if_pos hs] at he
        exact List.mem_cons_of_mem a (ih seen e he)
      · rw [if_neg hs] at he
        rcases List.mem_cons.1 he with rfl | he2
        · exact List.mem_cons_self _ _
        · exact List.mem_cons_of_mem a (ih (s :: seen) e he2)

theorem findEntryP_dedupFirstAux : ∀ (l : List Json) (seen : List String)
    (id : String), id ∉ seen →
    findEntryP (dedupFirstAux seen l) id = findEntryP l id := by
  intro l
  induction l with
  | nil => intro seen id _; rfl
  | cons e rest ih =>
    intro seen id hid
    rw [dedupFirstAux, findEntryP_cons]
    cases hk : entryKey e with
    | none =>
      change findEntryP (e :: dedupFirstAux seen rest) id = findEntryP rest id
      rw [findEntryP_cons, hk]
      change findEntryP (dedupFirstAux seen rest) id = findEntryP rest id
      exact ih seen id hid
    | some s =>
      change findEntryP (if s ∈ seen then dedupFirstAux seen rest
          else e :: dedupFirstAux (s :: seen) rest) id =
        (if (s == id) = true then some e else findEntryP rest id)
      by_cases hs : s ∈ seen
      · rw [if_pos hs]
        have hsid : (s == id) = false := by
          rw [beq_eq_false_iff_ne]
          intro he2
          exact hid (he2 ▸ hs)
        simp only [hsid, Bool.false_eq_true, if_false]
        exact ih seen id hid
      · rw [if_neg hs, findEntryP_cons, hk]
        change (if (s == id) = true then some e
            else findEntryP (dedupFirstAux (s :: seen) rest) id) =
          (if (s == id) = true then some e else findEntryP rest id)
        cases hsid : s == id with
        | true => simp [hsid]
        | false =>
          simp only [hsid, Bool.false_eq_true, if_false]
          have hid2 : id ∉ s :: seen := by
            intro h2
            rcases List.mem_cons.1 h2 with rfl | h3
            · rw [beq_eq_false_iff_ne] at hsid
              exact hsid rfl
            · exact hid h3
          exact ih (s :: seen) id hid2

theorem findEntryP_dedupFirst (entries : List Json) (id : String) :
    findEntryP (dedupFirst entries) id = findEntryP entries id := by
  show findEntryP (dedupFirstAux [] entries) id = findEntryP entries id
  exact findEntryP_dedupFirstAux entries [] id (by simp)

/-- C10: importing a well-formed snapshot array equals importing the
array with the later duplicates of each id removed — for each topic the
first entry in array order with its id governs the outcome, and later
duplicates are ignored. -/
theorem c10_first_duplicate_wins (st : Storage) (entries : List Json)
    (nodes : List Node)
    (hWF : ∀ e ∈ entries, (entryKey e).isSome = true) :
    importProgress st (some (Json.arr entries)) nodes =
      importProgress st (some (Json.arr (dedupFirst entries))) nodes := by
  have hN : ∀ e ∈ entries, e ≠ Json.null :=
    fun e he => entryKey_isSome_ne_null (hWF e he)
  have hN2 : ∀ e ∈ dedupFirst entries, e ≠ Json.null :=
    fun e he => hN e (mem_dedupFirstAux entries [] e he)
  apply importProgress_congr
  intro n _
  rw [findEntry_eq entries hN n.id, findEntry_eq _ hN2 n.id,
    findEntryP_dedupFirst entries n.id]

/-- Witness for C10 on a snapshot with two entries for the same id:
only the first (progress 30) governs the import. -/
theorem c10_first_duplicate_wins_witness :
    (∀ e ∈ [Json.obj [("id", Json.str "a"), ("progress", Json.num 30)],
            Json.obj [("id", Json.str "a"), ("progress", Json.num 80)]],
      (entryKey e).isSome = true) ∧
    importProgress stOk (some (Json.arr
      [Json.obj [("id", Json.str "a"), ("progress", Json.num 30)],
       Json.obj [("id", Json.str "a"), ("progress", Json.num 80)]])) [wBoundaryA] =
    importProgress stOk (some (Json.arr (dedupFirst
      [Json.obj [("id", Json.str "a"), ("progress", Json.num 30)],
       Json.obj [("id", Json.str "a"), ("progress", Json.num 80)]]))) [wBoundaryA] :=
  ⟨by decide,
    c10_first_duplicate_wins stOk
      [Json.obj [("id", Json.str "a"), ("progress", Json.num 30)],
       Json.obj [("id", Json.str "a"), ("progress", Json.num 80)]]
      [wBoundaryA] (by decide)⟩
